import Mathlib

/-!
# CardPlan core engine — shallow embedding

A shallow embedding of the CardPlan card-scoring and compatibility engine
(`src/app/domain/rules/*.ts`, `src/app/utils` date and money helpers), with
theorems checking the specification's claims about it.

Modelling conventions:

* TypeScript `number` is modelled as `ℚ` for monetary amounts, rates and
  scores, and as `ℤ` for counters (installment counts, days of month).
  Arithmetic on these values in the source is exact rational arithmetic.
* Calendar dates: the source works on ISO `yyyy-MM-dd` strings converted to
  JavaScript `Date` objects at local midnight.  A date is modelled as a
  `CivilDate`: `ym` is the absolute month index `12*year + (month-1)` — the
  normalised (year, monthIndex) pair the `Date` constructor produces — and
  `day` the 1-based day of month.  The `new Date(y, m, d)` constructor's
  month normalisation is `mkDate`; its day-overflow normalisation is never
  exercised by the engine (all constructions pass a day ≤ 28 or a valid
  parsed day, the only +1-day step goes through `nextCalendarDay` which
  models adding 24h at local midnight).
* Optional TypeScript fields are `Option`s.  Where the source tests a field
  with JavaScript truthiness (`if (campaign.minAmount)`), the model tests
  `some v` with `v ≠ 0` (for numbers) or `v ≠ ""` (for strings), matching
  the source exactly.
* Diagnostic `notes` and `explanation` strings are not modelled: they are
  append-only human-readable output that no computation reads back.
* `Array.prototype.sort` is modelled as a stable comparator-based insertion
  sort (`sortCmp`); it agrees with the engine's sort whenever the comparator
  is consistent, and the order properties proved below hold of its output.
-/

namespace CardPlan

/-! ## Money utilities (`src/app/utils/money.ts`) -/

/-- `round2(n) = Math.round(n * 100) / 100`; `Math.round x = ⌊x + 1/2⌋`. -/
def round2 (n : ℚ) : ℚ := (⌊n * 100 + 1/2⌋ : ℤ) / 100

/-- `clamp01(n) = Math.max(0, Math.min(1, n))`. -/
def clamp01 (n : ℚ) : ℚ := max 0 (min 1 n)

/-- `minMaxNormalize(value, min, max)`: 0.5 on a degenerate range, else the
clamped affine rescaling to `[0,1]`. -/
def minMaxNormalize (value lo hi : ℚ) : ℚ :=
  if hi = lo then 1/2 else clamp01 ((value - lo) / (hi - lo))

/-! ## Dates (`src/app/utils/dates.ts`) -/

/-- A calendar date: `ym = 12*year + monthIndex` (monthIndex 0-based), `day`
1-based.  This is the normalised content of a JS `Date` at local midnight. -/
structure CivilDate where
  ym : ℤ
  day : ℤ
deriving DecidableEq

/-- Models `new Date(y, m0, d)` (0-based month `m0`, month overflow
normalised into the year — free in the `ym` representation). -/
def mkDate (y m0 d : ℤ) : CivilDate := ⟨12 * y + m0, d⟩

/-- Strict chronological order on dates (`Date` comparison in the source). -/
def dateLtb (a b : CivilDate) : Bool :=
  a.ym < b.ym || (a.ym == b.ym && a.day < b.day)

/-- Proleptic Gregorian leap-year test. -/
def isLeapYear (y : ℤ) : Bool :=
  Int.emod y 4 == 0 && (Int.emod y 100 != 0 || Int.emod y 400 == 0)

/-- Number of days in the month with absolute index `ym`. -/
def daysInMonthOf (ym : ℤ) : ℤ :=
  let m0 := Int.emod ym 12
  if m0 = 1 then (if isLeapYear (Int.fdiv ym 12) then 29 else 28)
  else if m0 = 3 ∨ m0 = 5 ∨ m0 = 8 ∨ m0 = 10 then 30
  else 31

/-- The next calendar day: models `new Date(t + 24*60*60*1000)` on a local
midnight `Date`. -/
def nextCalendarDay (dt : CivilDate) : CivilDate :=
  if dt.day < daysInMonthOf dt.ym then ⟨dt.ym, dt.day + 1⟩ else ⟨dt.ym + 1, 1⟩

/-- `nextDayOfMonth(base, day)`: clamp `day` to `[1,28]`; that day in the
base month if not yet past, else in the next month. -/
def nextDayOfMonth (base : CivilDate) (day : ℤ) : CivilDate :=
  let clampedDay := max 1 (min 28 day)
  if base.day ≤ clampedDay then ⟨base.ym, clampedDay⟩
  else ⟨base.ym + 1, clampedDay⟩

/-- `addMonths(iso, months)`, day clamped to ≤ 28. -/
def addMonths (iso : CivilDate) (months : ℤ) : CivilDate :=
  ⟨iso.ym + months, min 28 iso.day⟩

/-- `nextStatementDate(purchaseISO, statementDay)`. -/
def nextStatementDate (purchaseISO : CivilDate) (statementDay : ℤ) : CivilDate :=
  nextDayOfMonth purchaseISO statementDay

/-- `nextDueDate(purchaseISO, statementDay, dueDay)`: first occurrence of the
due day strictly after the statement date. -/
def nextDueDate (purchaseISO : CivilDate) (statementDay dueDay : ℤ) : CivilDate :=
  nextDayOfMonth (nextCalendarDay (nextStatementDate purchaseISO statementDay)) dueDay

/-- Days since 1970-01-01 of a civil date (days-from-civil algorithm); models
`Date.getTime() / 86400000` for a local-midnight date. -/
def dayNumber (dt : CivilDate) : ℤ :=
  let year := Int.fdiv dt.ym 12
  let month := Int.emod dt.ym 12 + 1
  let y := if month ≤ 2 then year - 1 else year
  let era := Int.fdiv y 400
  let yoe := y - era * 400
  let mp := Int.emod (month + 9) 12
  let doy := Int.fdiv (153 * mp + 2) 5 + dt.day - 1
  let doe := yoe * 365 + Int.fdiv yoe 4 - Int.fdiv yoe 100 + doy
  era * 146097 + doe - 719468

/-- `daysBetween(a, b)`: absolute day difference. -/
def daysBetween (a b : CivilDate) : ℤ := |dayNumber b - dayNumber a|

/-! ## Domain types (`src/app/domain/types.ts`) -/

/-- `installmentSupport: number | boolean`. -/
inductive InstallmentSupport where
  | count (n : ℤ)
  | flag (b : Bool)
deriving DecidableEq

structure Purchase where
  amount : ℚ
  category : String
  installmentCount : ℤ
  date : CivilDate
  channel : String
  merchant : Option String := none
  posFeePercent : Option ℚ := none
deriving DecidableEq

structure Card where
  id : ℤ
  name : String
  totalLimit : ℚ
  availableLimit : ℚ
  statementDay : ℤ
  dueDay : ℤ
  cashbackPercent : ℚ
  pointRate : ℚ
  pointValue : ℚ
  installmentSupport : InstallmentSupport
  utilization : Option ℚ := none
deriving DecidableEq

/-- Campaign validity period; the source field `end` is a Lean keyword and is
named `stop` here. -/
structure DateRange where
  start : CivilDate
  stop : CivilDate
deriving DecidableEq

/-- Campaign record.  The advisory `types` list is not read by the engine and
is omitted. -/
structure Campaign where
  name : String
  category : Option String := none
  channel : Option String := none
  brand : Option String := none
  dateRange : Option DateRange := none
  minAmount : Option ℚ := none
  capAmount : Option ℚ := none
  monthlyCap : Option Bool := none
  extraCashbackPercent : Option ℚ := none
  extraPointRate : Option ℚ := none
  flatDiscount : Option ℚ := none
  maxInstallments : Option ℤ := none
  interestFreeMonths : Option ℤ := none
  requiresEnrollment : Option Bool := none
  enrolled : Option Bool := none
  requiresCode : Option Bool := none
  codeProvided : Option Bool := none
deriving DecidableEq

/-- JS truthiness of an optional number field. -/
def qtruthy (o : Option ℚ) : Bool :=
  match o with
  | some q => q != 0
  | none => false

/-- JS truthiness of an optional integer field. -/
def ztruthy (o : Option ℤ) : Bool :=
  match o with
  | some n => n != 0
  | none => false

/-- JS truthiness of an optional string field. -/
def struthy (o : Option String) : Bool :=
  match o with
  | some s => s != ""
  | none => false

/-- JS truthiness of an optional boolean field. -/
def btruthy (o : Option Bool) : Bool :=
  match o with
  | some b => b
  | none => false

/-! ## Compatibility checker (`src/app/domain/rules/compatibility.ts`) -/

structure CompatibilityResult where
  compatible : Bool
  adjustedInstallments : ℤ
  usabilityScore : ℚ
deriving DecidableEq

/-- `getCampaignInstallmentBoost`: largest truthy `maxInstallments` over the
supplied campaigns (0 if none); the optional `purchase` argument is unused by
the source loop. -/
def getCampaignInstallmentBoost (campaigns : List Campaign) : ℤ :=
  campaigns.foldl
    (fun maxBoost campaign =>
      match campaign.maxInstallments with
      | some n => if n ≠ 0 ∧ n > maxBoost then n else maxBoost
      | none => maxBoost)
    0

/-- `getMaxAllowedInstallments`: card-level cap, raised by the campaign
boost. -/
def getMaxAllowedInstallments (card : Card) (campaigns : List Campaign) : ℤ :=
  let maxInstallments :=
    match card.installmentSupport with
    | .count n => n
    | .flag true => 24
    | .flag false => 0
  let campaignBoost := getCampaignInstallmentBoost campaigns
  if campaignBoost > maxInstallments then campaignBoost else maxInstallments

/-- `checkCompatibility`: hard credit-limit gate, then installment adjustment
and usability scoring. -/
def checkCompatibility (purchase : Purchase) (card : Card)
    (campaigns : List Campaign) : CompatibilityResult :=
  if card.availableLimit < purchase.amount then
    { compatible := false
      adjustedInstallments := purchase.installmentCount
      usabilityScore := 0 }
  else
    let maxAllowedInstallments := getMaxAllowedInstallments card campaigns
    let adjusted :=
      if purchase.installmentCount > maxAllowedInstallments then
        (max 1 maxAllowedInstallments, (0.4 : ℚ))
      else if purchase.installmentCount > 1 ∧ maxAllowedInstallments = 0 then
        (1, 0.4)
      else
        (purchase.installmentCount, 1)
    let utilizationAfterPurchase :=
      (card.totalLimit - (card.availableLimit - purchase.amount)) / card.totalLimit
    let usabilityScore :=
      if utilizationAfterPurchase > 0.9 then min adjusted.2 0.6 else adjusted.2
    { compatible := true
      adjustedInstallments := adjusted.1
      usabilityScore := usabilityScore }

/-! ## Value calculator (`src/app/domain/rules/value.ts`) -/

structure ValueResult where
  rewardTL : ℚ
  costTL : ℚ
  netValueTL : ℚ
deriving DecidableEq

/-- `isCampaignApplicable`: boolean applicability predicate — date range,
minAmount, channel, category, brand, enrollment, code. -/
def isCampaignApplicable (purchase : Purchase) (campaign : Campaign) : Bool :=
  if (match campaign.dateRange with
      | some r => dateLtb purchase.date r.start || dateLtb r.stop purchase.date
      | none => false) then false
  else if qtruthy campaign.minAmount ∧ purchase.amount < campaign.minAmount.getD 0 then
    false
  else if struthy campaign.channel ∧ campaign.channel.getD "" ≠ "any" ∧
      campaign.channel.getD "" ≠ purchase.channel then
    false
  else if struthy campaign.category ∧ campaign.category.getD "" ≠ "general" ∧
      campaign.category.getD "" ≠ purchase.category then
    false
  else if struthy campaign.brand && campaign.brand.getD "" != "general" &&
      (match purchase.merchant with
       | some m => campaign.brand.getD "" != m
       | none => true) then
    false
  else if btruthy campaign.requiresEnrollment ∧ ¬ btruthy campaign.enrolled then
    false
  else if btruthy campaign.requiresCode ∧ ¬ btruthy campaign.codeProvided then
    false
  else true

/-- Benefit an applicable campaign contributes before capping (the body of
the `for (const campaign of applicableCampaigns)` loop). -/
def campaignBenefit (purchase : Purchase) (card : Card) (campaign : Campaign) : ℚ :=
  let b : ℚ := 0
  let b := if qtruthy campaign.extraCashbackPercent then
      b + purchase.amount * campaign.extraCashbackPercent.getD 0 else b
  let b := if qtruthy campaign.extraPointRate then
      b + purchase.amount * campaign.extraPointRate.getD 0 * card.pointValue else b
  let b := if qtruthy campaign.flatDiscount then b + campaign.flatDiscount.getD 0 else b
  b

/-- Fold step for the most restrictive cap (`minCap` starts at `Infinity`,
modelled by `none`). -/
def minCapStep (m : Option ℚ) (campaign : Campaign) : Option ℚ :=
  match campaign.capAmount with
  | some c =>
      if c != 0 && (match m with | some mv => decide (c < mv) | none => true) then some c
      else m
  | none => m

/-- `computeValueTL`: base cashback and points, capped campaign benefit,
minus POS fee; all reported figures rounded to 2 decimals. -/
def computeValueTL (purchase : Purchase) (card : Card)
    (campaigns : List Campaign) : ValueResult :=
  let totalRewards : ℚ := 0
  let baseCashback := purchase.amount * card.cashbackPercent
  let totalRewards := if baseCashback > 0 then totalRewards + baseCashback else totalRewards
  let basePointsEarned := purchase.amount * card.pointRate
  let basePointsValue := basePointsEarned * card.pointValue
  let totalRewards := if basePointsValue > 0 then totalRewards + basePointsValue else totalRewards
  let applicableCampaigns := campaigns.filter (fun c => isCampaignApplicable purchase c)
  let totalCampaignBenefit :=
    applicableCampaigns.foldl (fun acc campaign => acc + campaignBenefit purchase card campaign) 0
  let totalRewards :=
    if totalCampaignBenefit > 0 then
      let minCap := applicableCampaigns.foldl minCapStep none
      match minCap with
      | some mc =>
          if totalCampaignBenefit > mc then totalRewards + mc
          else totalRewards + totalCampaignBenefit
      | none => totalRewards + totalCampaignBenefit
    else totalRewards
  let totalCosts : ℚ := 0
  let posFee := purchase.amount * (purchase.posFeePercent.getD 0)
  let totalCosts := if posFee > 0 then totalCosts + posFee else totalCosts
  { rewardTL := round2 totalRewards
    costTL := round2 totalCosts
    netValueTL := round2 (totalRewards - totalCosts) }

/-! ## Cashflow calculator (`src/app/domain/rules/cashflow.ts`) -/

structure PaymentPlan where
  dueISO : CivilDate
  amount : ℚ
  daysFromPurchase : ℤ
deriving DecidableEq

/-- `calculateDaysFromPurchase`: non-negative day distance from purchase to a
due date. -/
def calculateDaysFromPurchase (purchaseISO dueISO : CivilDate) : ℤ :=
  max 0 (dayNumber dueISO - dayNumber purchaseISO)

/-- `buildInstallmentPlan`: normalised installment amounts (summing to 1)
with billing-cycle due dates. -/
def buildInstallmentPlan (purchaseISO : CivilDate) (installments : ℤ)
    (statementDay dueDay : ℤ) : List PaymentPlan :=
  let firstDueDate := nextDueDate purchaseISO statementDay dueDay
  if installments ≤ 1 then
    [{ dueISO := firstDueDate
       amount := 1
       daysFromPurchase := calculateDaysFromPurchase purchaseISO firstDueDate }]
  else
    let installmentAmount := round2 (1 / (installments : ℚ))
    (List.range installments.toNat).map (fun (i : ℕ) =>
      let dueDate := if i = 0 then firstDueDate else addMonths firstDueDate (i : ℤ)
      let amount :=
        if (i : ℤ) = installments - 1 then
          round2 (1 - installmentAmount * ((installments : ℚ) - 1))
        else installmentAmount
      { dueISO := dueDate
        amount := amount
        daysFromPurchase := calculateDaysFromPurchase purchaseISO dueDate })

/-- `cashflowScore`: amount-weighted average of payment deferral days,
normalised by a 60-day cap. -/
def cashflowScore (plan : List PaymentPlan) : ℚ :=
  if plan.isEmpty then 0
  else
    let totalDays :=
      (plan.map (fun payment => (payment.daysFromPurchase : ℚ) * payment.amount)).sum
    let totalWeight := (plan.map (fun payment => payment.amount)).sum
    let averageDays := if totalWeight > 0 then totalDays / totalWeight else 0
    clamp01 (min averageDays 60 / 60)

/-! ## Campaign matcher (`src/app/domain/rules/campaignMatch.ts`) -/

/-- Result of `evaluateCampaignMatch`; the source field `matches` is a Lean
keyword and is named `matched` here. -/
structure MatchResult where
  matched : Bool
  score : ℚ
deriving DecidableEq

/-- One criterion tally step: `totalCriteria++`, and `matchCount++` when the
criterion matched. -/
def tally (tm : ℕ × ℕ) (matched : Bool) : ℕ × ℕ :=
  (tm.1 + 1, if matched then tm.2 + 1 else tm.2)

/-- The (totalCriteria, matchCount) pair accumulated by
`evaluateCampaignMatch`. -/
def matchCounters (purchase : Purchase) (campaign : Campaign) : ℕ × ℕ :=
  let tm : ℕ × ℕ := (0, 0)
  let tm :=
    match campaign.dateRange with
    | some r => tally tm (!dateLtb purchase.date r.start && !dateLtb r.stop purchase.date)
    | none => tm
  let tm :=
    if struthy campaign.channel ∧ campaign.channel.getD "" ≠ "any" then
      tally tm (campaign.channel.getD "" == purchase.channel)
    else tm
  let tm :=
    if struthy campaign.category ∧ campaign.category.getD "" ≠ "general" then
      tally tm (campaign.category.getD "" == purchase.category)
    else tm
  let tm :=
    if struthy campaign.brand ∧ campaign.brand.getD "" ≠ "general" then
      tally tm
        (match purchase.merchant with
         | some m => campaign.brand.getD "" == m
         | none => false)
    else tm
  let tm :=
    if qtruthy campaign.minAmount then
      tally tm (decide (purchase.amount ≥ campaign.minAmount.getD 0))
    else tm
  tm

/-- `evaluateCampaignMatch`: per-criterion tally and the partial-match
scoring rule. -/
def evaluateCampaignMatch (purchase : Purchase) (campaign : Campaign) : MatchResult :=
  let tm := matchCounters purchase campaign
  let score : ℚ :=
    if tm.1 = 0 then 1
    else if tm.2 = tm.1 then 1
    else if tm.2 > 0 then max 0.3 ((tm.2 : ℚ) / (tm.1 : ℚ))
    else 0
  { matched := decide (score > 0), score := score }

structure EffectiveCampaignBenefits where
  extraCashbackPercent : ℚ
  extraPointRate : ℚ
  flatDiscount : ℚ
  maxInstallmentsBoost : Option ℤ := none
  interestFreeMonths : Option ℤ := none
deriving DecidableEq

structure CampaignRequirements where
  enrollmentOk : Bool
  codeOk : Bool
deriving DecidableEq

structure CampaignEvaluationResult where
  effective : EffectiveCampaignBenefits
  matchScore : ℚ
  requirementsOk : CampaignRequirements
deriving DecidableEq

/-- Mutable evaluation state of the `evaluateCampaigns` loop. -/
structure CampaignEvalState where
  totalMatchScore : ℚ
  applicableCampaignCount : ℕ
  effective : EffectiveCampaignBenefits
  hasEnrollmentRequirement : Bool
  allEnrollmentsSatisfied : Bool
  hasCodeRequirement : Bool
  allCodesSatisfied : Bool

def initialEvalState : CampaignEvalState :=
  { totalMatchScore := 0
    applicableCampaignCount := 0
    effective := { extraCashbackPercent := 0, extraPointRate := 0, flatDiscount := 0 }
    hasEnrollmentRequirement := false
    allEnrollmentsSatisfied := true
    hasCodeRequirement := false
    allCodesSatisfied := true }

/-- Applicable campaign found: bump the count and accumulate its score. -/
def bumpScore (matchResult : MatchResult) (st : CampaignEvalState) : CampaignEvalState :=
  { st with
    applicableCampaignCount := st.applicableCampaignCount + 1
    totalMatchScore := st.totalMatchScore + matchResult.score }

/-- Track an enrollment requirement of an applicable campaign. -/
def trackEnrollment (campaign : Campaign) (st : CampaignEvalState) : CampaignEvalState :=
  if btruthy campaign.requiresEnrollment then
    { st with
      hasEnrollmentRequirement := true
      allEnrollmentsSatisfied := st.allEnrollmentsSatisfied && btruthy campaign.enrolled }
  else st

/-- Track a promo-code requirement of an applicable campaign. -/
def trackCode (campaign : Campaign) (st : CampaignEvalState) : CampaignEvalState :=
  if btruthy campaign.requiresCode then
    { st with
      hasCodeRequirement := true
      allCodesSatisfied := st.allCodesSatisfied && btruthy campaign.codeProvided }
  else st

/-- Aggregate the benefits of an applicable campaign whose requirements are
met (extras summed, flat discount maxed, installment boosts maxed). -/
def applyBenefits (campaign : Campaign) (st : CampaignEvalState) : CampaignEvalState :=
  let requirementsMet :=
    (!btruthy campaign.requiresEnrollment || btruthy campaign.enrolled) &&
    (!btruthy campaign.requiresCode || btruthy campaign.codeProvided)
  if requirementsMet then
    let eff := st.effective
    let eff :=
      if qtruthy campaign.extraCashbackPercent then
        { eff with extraCashbackPercent :=
            eff.extraCashbackPercent + campaign.extraCashbackPercent.getD 0 }
      else eff
    let eff :=
      if qtruthy campaign.extraPointRate then
        { eff with extraPointRate := eff.extraPointRate + campaign.extraPointRate.getD 0 }
      else eff
    let eff :=
      if qtruthy campaign.flatDiscount ∧ campaign.flatDiscount.getD 0 > eff.flatDiscount then
        { eff with flatDiscount := campaign.flatDiscount.getD 0 }
      else eff
    let eff :=
      if ztruthy campaign.maxInstallments then
        let boosted := max (eff.maxInstallmentsBoost.getD 0) (campaign.maxInstallments.getD 0)
        { eff with maxInstallmentsBoost := some boosted }
      else eff
    let eff :=
      if ztruthy campaign.interestFreeMonths then
        let boosted := max (eff.interestFreeMonths.getD 0) (campaign.interestFreeMonths.getD 0)
        { eff with interestFreeMonths := some boosted }
      else eff
    { st with effective := eff }
  else st

/-- Loop body of `evaluateCampaigns` for one campaign: the source's
sequential state mutations in order. -/
def evalCampaignStep (purchase : Purchase) (st : CampaignEvalState)
    (campaign : Campaign) : CampaignEvalState :=
  let matchResult := evaluateCampaignMatch purchase campaign
  if matchResult.matched then
    applyBenefits campaign (trackCode campaign (trackEnrollment campaign
      (bumpScore matchResult st)))
  else st

/-- `evaluateCampaigns`: benefits and requirement flags over applicable
campaigns; overall match score is the clamped average of applicable
per-campaign scores. -/
def evaluateCampaigns (purchase : Purchase) (_card : Card)
    (campaigns : List Campaign) : CampaignEvaluationResult :=
  let st := campaigns.foldl (evalCampaignStep purchase) initialEvalState
  { effective := st.effective
    matchScore :=
      if st.applicableCampaignCount > 0 then
        clamp01 (st.totalMatchScore / (st.applicableCampaignCount : ℚ))
      else 0
    requirementsOk :=
      { enrollmentOk := !st.hasEnrollmentRequirement || st.allEnrollmentsSatisfied
        codeOk := !st.hasCodeRequirement || st.allCodesSatisfied } }

/-! ## Risk penalty calculator (`src/app/domain/rules/riskPenalty.ts`) -/

structure RequiredFlags where
  enrollmentOk : Option Bool := none
  codeOk : Option Bool := none
deriving DecidableEq

structure RiskPenaltyParams where
  card : Card
  purchase : Purchase
  adjustedInstallments : ℤ
  requiredFlags : Option RequiredFlags := none
deriving DecidableEq

structure RiskPenaltyResult where
  penalty : ℚ
deriving DecidableEq

/-- `computeRiskPenalty`: additive penalties, summed then clamped to `[0,1]`.
The source's date-arithmetic `try`/`catch` never fires in this model: the
date functions are total. -/
def computeRiskPenalty (params : RiskPenaltyParams) : RiskPenaltyResult :=
  let card := params.card
  let purchase := params.purchase
  let totalPenalty : ℚ := 0
  let totalPenalty :=
    if card.availableLimit < purchase.amount then totalPenalty + 0.6 else totalPenalty
  let postTransactionUtilization :=
    (card.totalLimit - (card.availableLimit - purchase.amount)) / card.totalLimit
  let totalPenalty :=
    if postTransactionUtilization > 0.8 then totalPenalty + 0.15
    else if postTransactionUtilization > 0.5 then totalPenalty + 0.10
    else if postTransactionUtilization > 0.3 then totalPenalty + 0.05
    else totalPenalty
  let nextDueDateISO := nextDueDate purchase.date card.statementDay card.dueDay
  let daysUntilDue := daysBetween purchase.date nextDueDateISO
  let totalPenalty := if daysUntilDue ≤ 3 then totalPenalty + 0.1 else totalPenalty
  let totalPenalty :=
    if params.adjustedInstallments < purchase.installmentCount then totalPenalty + 0.2
    else totalPenalty
  let totalPenalty :=
    match params.requiredFlags with
    | some flags =>
        let t := if flags.enrollmentOk = some false then totalPenalty + 0.15 else totalPenalty
        if flags.codeOk = some false then t + 0.15 else t
    | none => totalPenalty
  { penalty := clamp01 totalPenalty }

/-! ## Scoring orchestrator (`src/app/domain/rules/score.ts`) -/

structure ScoreWeights where
  value : ℚ
  cashflow : ℚ
  risk : ℚ
  usability : ℚ
  campaign : ℚ
deriving DecidableEq

def DEFAULT_WEIGHTS : ScoreWeights :=
  { value := 0.45, cashflow := 0.25, risk := 0.20, usability := 0.05, campaign := 0.05 }

/-- `Partial<ScoreWeights>` of the options object. -/
structure PartialScoreWeights where
  value : Option ℚ := none
  cashflow : Option ℚ := none
  risk : Option ℚ := none
  usability : Option ℚ := none
  campaign : Option ℚ := none
deriving DecidableEq

/-- `{ ...DEFAULT_WEIGHTS, ...customWeights }`. -/
def mergeWeights (w : PartialScoreWeights) : ScoreWeights :=
  { value := w.value.getD DEFAULT_WEIGHTS.value
    cashflow := w.cashflow.getD DEFAULT_WEIGHTS.cashflow
    risk := w.risk.getD DEFAULT_WEIGHTS.risk
    usability := w.usability.getD DEFAULT_WEIGHTS.usability
    campaign := w.campaign.getD DEFAULT_WEIGHTS.campaign }

/-- `ScoringOptions`: the `campaignsByCardId` record is modelled as a total
lookup function (absent keys give `[]`, the source's `?? []`). -/
structure ScoringOptions where
  campaignsByCardId : ℤ → List Campaign := fun _ => []
  weights : PartialScoreWeights := {}

structure ScoreBreakdown where
  netValueTL : ℚ
  valueScore : ℚ
  cashflowScore : ℚ
  riskPenalty : ℚ
  usabilityScore : ℚ
  campaignMatchScore : ℚ
deriving DecidableEq

/-- Scored card; `resultingUtilization` and `adjustedInstallments` are
optional in the source interface but always set by `scoreCards`. The
`explanation` string is not modelled. -/
structure ScoredCard where
  card : Card
  totalScore : ℚ
  breakdown : ScoreBreakdown
  resultingUtilization : ℚ
  adjustedInstallments : ℤ
deriving DecidableEq

/-- Intermediate per-card scoring data (`CardScoreData`). -/
structure CardScoreData where
  card : Card
  netValueTL : ℚ
  valueScore : ℚ
  cashflowScore : ℚ
  riskPenalty : ℚ
  usabilityScore : ℚ
  campaignMatchScore : ℚ
  adjustedInstallments : ℤ
  resultingUtilization : ℚ
deriving DecidableEq

/-- Phase-1 body of `scoreCards` for one card: `none` when the compatibility
gate filters the card out. -/
def evaluateCard (purchase : Purchase) (options : ScoringOptions)
    (card : Card) : Option CardScoreData :=
  let campaigns := options.campaignsByCardId card.id
  let compatibility := checkCompatibility purchase card campaigns
  if !compatibility.compatible then none
  else
    let campaignEval := evaluateCampaigns purchase card campaigns
    let valueResult := computeValueTL purchase card campaigns
    let installmentPlan :=
      buildInstallmentPlan purchase.date compatibility.adjustedInstallments
        card.statementDay card.dueDay
    let cashflow := cashflowScore installmentPlan
    let riskResult := computeRiskPenalty
      { card := card
        purchase := purchase
        adjustedInstallments := compatibility.adjustedInstallments
        requiredFlags := some
          { enrollmentOk := some campaignEval.requirementsOk.enrollmentOk
            codeOk := some campaignEval.requirementsOk.codeOk } }
    let resultingUtilization :=
      (card.totalLimit - (card.availableLimit - purchase.amount)) / card.totalLimit
    some
      { card := card
        netValueTL := valueResult.netValueTL
        valueScore := 0
        cashflowScore := cashflow
        riskPenalty := riskResult.penalty
        usabilityScore := compatibility.usabilityScore
        campaignMatchScore := campaignEval.matchScore
        adjustedInstallments := compatibility.adjustedInstallments
        resultingUtilization := resultingUtilization }

/-- Phase-3 body: weighted composite score (0–100, clamped) and clamped
breakdown components. -/
def mkScoredCard (weights : ScoreWeights) (data : CardScoreData) : ScoredCard :=
  let totalScore := round2 (100 * (
    weights.value * data.valueScore +
    weights.cashflow * data.cashflowScore +
    weights.risk * (1 - data.riskPenalty) +
    weights.usability * data.usabilityScore +
    weights.campaign * data.campaignMatchScore))
  { card := data.card
    totalScore := max 0 (min 100 totalScore)
    breakdown :=
      { netValueTL := data.netValueTL
        valueScore := clamp01 data.valueScore
        cashflowScore := clamp01 data.cashflowScore
        riskPenalty := clamp01 data.riskPenalty
        usabilityScore := clamp01 data.usabilityScore
        campaignMatchScore := clamp01 data.campaignMatchScore }
    resultingUtilization := round2 data.resultingUtilization
    adjustedInstallments := data.adjustedInstallments }

/-- One tier of the sort comparator: return the decisive difference, else
fall through. -/
def cmpTier (diff next : ℚ) : ℚ := if |diff| > 1/1000000 then diff else next

/-- Final comparator tier: `a.card.name.localeCompare(b.card.name)`,
modelled as lexicographic string comparison. -/
def compareName (a b : ScoredCard) : ℚ :=
  if a.card.name < b.card.name then -1
  else if a.card.name = b.card.name then 0
  else 1

/-- Phase-4 comparator of `scoreCards`. -/
def compareScoredCards (a b : ScoredCard) : ℚ :=
  cmpTier (b.totalScore - a.totalScore)
    (cmpTier (b.breakdown.valueScore - a.breakdown.valueScore)
      (cmpTier (b.breakdown.cashflowScore - a.breakdown.cashflowScore)
        (cmpTier (a.breakdown.riskPenalty - b.breakdown.riskPenalty)
          (cmpTier (a.resultingUtilization - b.resultingUtilization)
            (compareName a b)))))

/-- Insert into a comparator-sorted list, after entries comparing first. -/
def insertCmp {α : Type} (cmp : α → α → ℚ) (x : α) : List α → List α
  | [] => [x]
  | y :: ys => if cmp x y ≤ 0 then x :: y :: ys else y :: insertCmp cmp x ys

/-- Stable comparator sort modelling `Array.prototype.sort(cmp)`. -/
def sortCmp {α : Type} (cmp : α → α → ℚ) : List α → List α
  | [] => []
  | x :: xs => insertCmp cmp x (sortCmp cmp xs)

/-- `scoreCards`: compatibility filter, per-card metrics, min-max value
normalisation, weighted totals, comparator sort. -/
def scoreCards (purchase : Purchase) (cards : List Card)
    (options : ScoringOptions) : List ScoredCard :=
  let weights := mergeWeights options.weights
  let cardScoreData := cards.filterMap (evaluateCard purchase options)
  match cardScoreData with
  | [] => []
  | d :: ds =>
    let minValue := (ds.map (fun data => data.netValueTL)).foldl min d.netValueTL
    let maxValue := (ds.map (fun data => data.netValueTL)).foldl max d.netValueTL
    let normalized := (d :: ds).map (fun data =>
      { data with valueScore := minMaxNormalize data.netValueTL minValue maxValue })
    let scoredCards := normalized.map (mkScoredCard weights)
    sortCmp compareScoredCards scoredCards

/-! ## Specification-side definitions

Independent renderings of quantities the specification's claims describe,
to be compared with the source-derived definitions above. -/

/-- Spec: risk contribution of an insufficient credit limit. -/
def riskLimitTerm (params : RiskPenaltyParams) : ℚ :=
  if params.card.availableLimit < params.purchase.amount then 0.6 else 0

/-- Spec: post-purchase utilization used by the risk tiers. -/
def postUtilization (params : RiskPenaltyParams) : ℚ :=
  (params.card.totalLimit - (params.card.availableLimit - params.purchase.amount)) /
    params.card.totalLimit

/-- Spec: exactly one utilization tier — 0.15 above 80%, else 0.10 above
50%, else 0.05 above 30%, else nothing. -/
def riskUtilizationTerm (params : RiskPenaltyParams) : ℚ :=
  if postUtilization params > 0.8 then 0.15
  else if postUtilization params > 0.5 then 0.10
  else if postUtilization params > 0.3 then 0.05
  else 0

/-- Spec: 0.1 when the next due date is at most 3 days after the purchase. -/
def riskDueDateTerm (params : RiskPenaltyParams) : ℚ :=
  if daysBetween params.purchase.date
      (nextDueDate params.purchase.date params.card.statementDay params.card.dueDay) ≤ 3
  then 0.1 else 0

/-- Spec: 0.2 when installments were adjusted below the request. -/
def riskInstallmentTerm (params : RiskPenaltyParams) : ℚ :=
  if params.adjustedInstallments < params.purchase.installmentCount then 0.2 else 0

/-- Spec: 0.15 for an unmet enrollment flag. -/
def riskEnrollmentTerm (params : RiskPenaltyParams) : ℚ :=
  match params.requiredFlags with
  | some flags => if flags.enrollmentOk = some false then 0.15 else 0
  | none => 0

/-- Spec: 0.15 for an unmet code flag. -/
def riskCodeTerm (params : RiskPenaltyParams) : ℚ :=
  match params.requiredFlags with
  | some flags => if flags.codeOk = some false then 0.15 else 0
  | none => 0

/-- Spec: base reward of a card — cashback plus points value (positive parts
accumulated, as in the source). -/
def baseReward (purchase : Purchase) (card : Card) : ℚ :=
  (if purchase.amount * card.cashbackPercent > 0
   then purchase.amount * card.cashbackPercent else 0) +
  (if purchase.amount * card.pointRate * card.pointValue > 0
   then purchase.amount * card.pointRate * card.pointValue else 0)

/-- Spec: the campaigns applicable to a purchase. -/
def applicableCampaignsOf (purchase : Purchase) (campaigns : List Campaign) : List Campaign :=
  campaigns.filter (fun c => isCampaignApplicable purchase c)

/-- Spec: the caps carried by the applicable campaigns (a campaign carries a
cap when its `capAmount` field is present and nonzero, the source's
truthiness reading of "with a capAmount"). -/
def campaignCaps (purchase : Purchase) (campaigns : List Campaign) : List ℚ :=
  (applicableCampaignsOf purchase campaigns).filterMap (fun c =>
    match c.capAmount with
    | some v => if v ≠ 0 then some v else none
    | none => none)

/-- Minimum of a rational list (`none` on the empty list). -/
def listMinQ : List ℚ → Option ℚ
  | [] => none
  | a :: as => some (as.foldl min a)

/-- Spec: summed benefit of the applicable campaigns. -/
def campaignBenefitSum (purchase : Purchase) (card : Card)
    (campaigns : List Campaign) : ℚ :=
  ((applicableCampaignsOf purchase campaigns).map
    (fun c => campaignBenefit purchase card c)).sum

/-- Spec: card-derived installment cap — the numeric support itself, 24 for
boolean `true`, 0 for `false`. -/
def cardInstallmentCap (card : Card) : ℤ :=
  match card.installmentSupport with
  | .count n => n
  | .flag true => 24
  | .flag false => 0

/-- Spec: maximum truthy `maxInstallments` over all supplied campaigns,
regardless of applicability (0 when none). -/
def campaignsMaxInstallments (campaigns : List Campaign) : ℤ :=
  (campaigns.filterMap (fun c =>
    match c.maxInstallments with
    | some n => if n ≠ 0 then some n else none
    | none => none)).foldl max 0

/-- Spec: the installment ceiling — the card cap raised to the campaign
maximum. -/
def installmentCeiling (card : Card) (campaigns : List Campaign) : ℤ :=
  max (cardInstallmentCap card) (campaignsMaxInstallments campaigns)

/-- Spec: the outcomes of the criteria a campaign presents for a purchase,
in source order: date range, channel (unless "any"), category (unless
"general"), brand (unless "general"), minAmount. -/
def criteriaResults (purchase : Purchase) (campaign : Campaign) : List Bool :=
  (match campaign.dateRange with
   | some r => [!dateLtb purchase.date r.start && !dateLtb r.stop purchase.date]
   | none => []) ++
  (if struthy campaign.channel ∧ campaign.channel.getD "" ≠ "any" then
    [campaign.channel.getD "" == purchase.channel]
   else []) ++
  (if struthy campaign.category ∧ campaign.category.getD "" ≠ "general" then
    [campaign.category.getD "" == purchase.category]
   else []) ++
  (if struthy campaign.brand ∧ campaign.brand.getD "" ≠ "general" then
    [match purchase.merchant with
     | some m => campaign.brand.getD "" == m
     | none => false]
   else []) ++
  (if qtruthy campaign.minAmount then
    [decide (purchase.amount ≥ campaign.minAmount.getD 0)]
   else [])

/-- Spec: per-campaign match score — 1.0 with zero present criteria or all
matched, `max 0.3 (matched/total)` with a partial match, 0 otherwise. -/
def matchScoreSpec (purchase : Purchase) (campaign : Campaign) : ℚ :=
  let total := (criteriaResults purchase campaign).length
  let matched := ((criteriaResults purchase campaign).filter (fun b => b)).length
  if total = 0 ∨ matched = total then 1
  else if 0 < matched then max 0.3 ((matched : ℚ) / (total : ℚ))
  else 0

/-- Spec: overall match score — plain average of per-campaign scores over the
campaigns with positive score, 0 when none. -/
def matchScoreAverageSpec (purchase : Purchase) (campaigns : List Campaign) : ℚ :=
  let applicable := campaigns.filter (fun c => decide (0 < matchScoreSpec purchase c))
  if applicable.length = 0 then 0
  else ((applicable.map (fun c => matchScoreSpec purchase c)).sum) / (applicable.length : ℚ)

/-- Spec: tie-break order between adjacent equal-total entries — higher
valueScore, then higher cashflowScore, then lower riskPenalty, then lower
resultingUtilization, then name ascending; each comparison treating
differences within 1e-6 as ties, as the comparator does. -/
def tieBreak (a b : ScoredCard) : Prop :=
  1/1000000 < a.breakdown.valueScore - b.breakdown.valueScore ∨
  (|a.breakdown.valueScore - b.breakdown.valueScore| ≤ 1/1000000 ∧
    (1/1000000 < a.breakdown.cashflowScore - b.breakdown.cashflowScore ∨
      (|a.breakdown.cashflowScore - b.breakdown.cashflowScore| ≤ 1/1000000 ∧
        (1/1000000 < b.breakdown.riskPenalty - a.breakdown.riskPenalty ∨
          (|a.breakdown.riskPenalty - b.breakdown.riskPenalty| ≤ 1/1000000 ∧
            (1/1000000 < b.resultingUtilization - a.resultingUtilization ∨
              (|a.resultingUtilization - b.resultingUtilization| ≤ 1/1000000 ∧
                a.card.name ≤ b.card.name)))))))

/-! ## Sample inputs (test-scenario data from the specification) -/

/-- Purchase of the spec's electronics scenario (2024-08-10). -/
def samplePurchase : Purchase :=
  { amount := 1500
    category := "electronics"
    installmentCount := 3
    date := mkDate 2024 7 10
    channel := "online" }

/-- Card of the spec's electronics scenario. -/
def sampleCard : Card :=
  { id := 1
    name := "Platinum"
    totalLimit := 50000
    availableLimit := 45000
    statementDay := 15
    dueDay := 5
    cashbackPercent := 0.025
    pointRate := 1
    pointValue := 0.01
    installmentSupport := .count 12 }

/-- The "Electronics Cashback Boost" campaign of the spec's scenario. -/
def sampleCampaign : Campaign :=
  { name := "Electronics Cashback Boost"
    category := some "electronics"
    minAmount := some 1000
    capAmount := some 500
    extraCashbackPercent := some 0.03
    requiresEnrollment := some true
    enrolled := some true }

/-- A card whose available limit is below the sample purchase amount. -/
def poorCard : Card :=
  { id := 2
    name := "Starter"
    totalLimit := 2000
    availableLimit := 100
    statementDay := 10
    dueDay := 1
    cashbackPercent := 0.01
    pointRate := 0
    pointValue := 0
    installmentSupport := .flag false }

/-- A card without installment support (spec scenario: `installmentSupport=0`
with requested installment count 5). -/
def zeroInstallmentCard : Card :=
  { id := 3
    name := "Basic"
    totalLimit := 30000
    availableLimit := 20000
    statementDay := 1
    dueDay := 20
    cashbackPercent := 0.01
    pointRate := 0
    pointValue := 0
    installmentSupport := .count 0 }

/-- The sample purchase with five requested installments. -/
def fiveInstallmentPurchase : Purchase :=
  { samplePurchase with installmentCount := 5 }

/-! ## Claim C1 — the hard credit-limit gate -/

/-- C1: for every purchase, card and campaign list, `checkCompatibility`
returns `compatible = false` iff `availableLimit < amount`, and in that case
it returns `usabilityScore = 0`. -/
theorem checkCompatibility_hard_limit_gate (purchase : Purchase) (card : Card)
    (campaigns : List Campaign) :
    ((checkCompatibility purchase card campaigns).compatible = false ↔
      card.availableLimit < purchase.amount) ∧
    (card.availableLimit < purchase.amount →
      (checkCompatibility purchase card campaigns).usabilityScore = 0) := by
  unfold checkCompatibility
  split_ifs with h <;> simp [h]

/-- Witness for C1 at the sample purchase against the low-limit card. -/
theorem checkCompatibility_hard_limit_gate_witness :
    (checkCompatibility samplePurchase poorCard []).compatible = false ∧
    (checkCompatibility samplePurchase poorCard []).usabilityScore = 0 := by
  have h := checkCompatibility_hard_limit_gate samplePurchase poorCard []
  exact ⟨h.1.mpr (by norm_num [samplePurchase, poorCard]),
    h.2 (by norm_num [samplePurchase, poorCard])⟩

/-! ## Claim C9 — due date strictly after statement date -/

/-- With the day already in 1–28, `nextDayOfMonth` is a plain case split. -/
lemma nextDayOfMonth_in_range (base : CivilDate) (day : ℤ)
    (h1 : 1 ≤ day) (h2 : day ≤ 28) :
    nextDayOfMonth base day =
      if base.day ≤ day then (⟨base.ym, day⟩ : CivilDate) else ⟨base.ym + 1, day⟩ := by
  unfold nextDayOfMonth
  have hc : max 1 (min 28 day) = day := by omega
  rw [hc]

/-- `nextCalendarDay` either advances the day or opens the next month. -/
lemma nextCalendarDay_cases (dt : CivilDate) :
    nextCalendarDay dt = ⟨dt.ym, dt.day + 1⟩ ∨ nextCalendarDay dt = ⟨dt.ym + 1, 1⟩ := by
  unfold nextCalendarDay
  split_ifs <;> simp

/-- The day after any date, pushed to the next occurrence of a day in 1–28,
lands strictly later. -/
lemma dateLtb_next_after (s : CivilDate) (dd : ℤ) (hd1 : 1 ≤ dd) (hd2 : dd ≤ 28) :
    dateLtb s (nextDayOfMonth (nextCalendarDay s) dd) = true := by
  rcases nextCalendarDay_cases s with h | h <;>
    rw [h, nextDayOfMonth_in_range _ dd hd1 hd2] <;>
    · unfold dateLtb
      split_ifs <;> simp_all <;> omega

/-- C9: for every purchase date and statement/due day in 1–28, the due date
is strictly after the statement date (hence at least one day later), also
when `statementDay = dueDay`. -/
theorem nextDueDate_strictly_after_statement (p : CivilDate) (sd dd : ℤ)
    (_hsd : 1 ≤ sd ∧ sd ≤ 28) (hdd : 1 ≤ dd ∧ dd ≤ 28) :
    dateLtb (nextStatementDate p sd) (nextDueDate p sd dd) = true := by
  unfold nextDueDate
  exact dateLtb_next_after (nextStatementDate p sd) dd hdd.1 hdd.2

/-- Witness for C9 on the sample billing cycle. -/
theorem nextDueDate_strictly_after_statement_witness :
    dateLtb (nextStatementDate (mkDate 2024 7 10) 15) (nextDueDate (mkDate 2024 7 10) 15 5) =
      true :=
  nextDueDate_strictly_after_statement (mkDate 2024 7 10) 15 5
    (by norm_num) (by norm_num)

/-! ## Claim C10 — the electronics scenario -/

/-- C10: the spec's concrete electronics scenario — compatible, three
installments kept, and a net value of 97.5 TL made of 37.5 base cashback,
15 points value and 45 campaign cashback staying under the 500 cap. -/
theorem electronics_scenario :
    (checkCompatibility samplePurchase sampleCard [sampleCampaign]).compatible = true ∧
    (checkCompatibility samplePurchase sampleCard [sampleCampaign]).adjustedInstallments = 3 ∧
    (computeValueTL samplePurchase sampleCard [sampleCampaign]).netValueTL = 97.5 ∧
    samplePurchase.amount * sampleCard.cashbackPercent = 37.5 ∧
    samplePurchase.amount * sampleCard.pointRate * sampleCard.pointValue = 15 ∧
    campaignBenefitSum samplePurchase sampleCard [sampleCampaign] = 45 ∧
    listMinQ (campaignCaps samplePurchase [sampleCampaign]) = some 500 ∧
    campaignBenefitSum samplePurchase sampleCard [sampleCampaign] <
      (sampleCampaign.capAmount.getD 0) := by
  norm_num [checkCompatibility, computeValueTL, getMaxAllowedInstallments,
    getCampaignInstallmentBoost, isCampaignApplicable, campaignBenefit, campaignBenefitSum,
    applicableCampaignsOf, campaignCaps, listMinQ, minCapStep, round2, qtruthy, struthy,
    btruthy, ztruthy, dateLtb, samplePurchase, sampleCard, sampleCampaign,
    List.filterMap_cons, List.filterMap_nil, List.filter_cons, List.filter_nil,
    List.foldl_cons, List.foldl_nil, List.map_cons, List.map_nil]

/-! ## Claim C4 — additive risk penalty, clamped once after the sum -/

set_option maxHeartbeats 2000000 in
/-- C4: `computeRiskPenalty` is the clamp to `[0,1]` of one sum of six
independent contributions (insufficient limit, exactly one utilization tier,
due-date proximity, installment mismatch, unmet enrollment flag, unmet code
flag), with the clamp applied once after the sum. -/
theorem computeRiskPenalty_additive (params : RiskPenaltyParams) :
    (computeRiskPenalty params).penalty =
      clamp01 (riskLimitTerm params + riskUtilizationTerm params + riskDueDateTerm params +
        riskInstallmentTerm params + riskEnrollmentTerm params + riskCodeTerm params) := by
  obtain ⟨card, purchase, adj, flags⟩ := params
  rcases flags with _ | ⟨eo, co⟩ <;>
    · simp only [computeRiskPenalty, riskLimitTerm, riskUtilizationTerm, riskDueDateTerm,
        riskInstallmentTerm, riskEnrollmentTerm, riskCodeTerm, postUtilization]
      split_ifs <;> · refine congrArg clamp01 ?_; ring

/-! ## Claim C8 — installment amounts sum exactly to 1 -/

/-- `round2` output always has denominator dividing 100. -/
lemma round2_div_form (x : ℚ) : ∃ z : ℤ, round2 x = (z : ℚ) / 100 :=
  ⟨⌊x * 100 + 1/2⌋, rfl⟩

/-- `round2` fixes every rational with denominator dividing 100. -/
lemma round2_eq_self_div_100 (z : ℤ) : round2 ((z : ℚ) / 100) = (z : ℚ) / 100 := by
  unfold round2
  rw [div_mul_cancel₀ _ (by norm_num : (100 : ℚ) ≠ 0), Int.floor_int_add]
  norm_num

/-- The last installment's rounding is the identity: the remainder already
has denominator 100. -/
lemma round2_last_installment (n : ℤ) :
    round2 (1 - round2 (1 / (n : ℚ)) * ((n : ℚ) - 1)) =
      1 - round2 (1 / (n : ℚ)) * ((n : ℚ) - 1) := by
  obtain ⟨k, hk⟩ := round2_div_form (1 / (n : ℚ))
  rw [hk]
  have h : (1 : ℚ) - (k : ℚ) / 100 * ((n : ℚ) - 1) = ((100 - k * (n - 1) : ℤ) : ℚ) / 100 := by
    push_cast
    ring
  rw [h, round2_eq_self_div_100]

/-- C8: for every purchase date, statement day, due day and installment
count n ≥ 1, the plan's amounts are n−1 copies of `round2(1/n)` followed by
the remainder `1 − round2(1/n)·(n−1)`, and they sum to exactly 1. -/
theorem buildInstallmentPlan_amounts (purchaseISO : CivilDate)
    (installments statementDay dueDay : ℤ) (h : 1 ≤ installments) :
    ((buildInstallmentPlan purchaseISO installments statementDay dueDay).map
        PaymentPlan.amount) =
      List.replicate (installments - 1).toNat (round2 (1 / (installments : ℚ))) ++
        [1 - round2 (1 / (installments : ℚ)) * ((installments : ℚ) - 1)] ∧
    (((buildInstallmentPlan purchaseISO installments statementDay dueDay).map
        PaymentPlan.amount)).sum = 1 := by
  by_cases h1 : installments ≤ 1
  · have heq : installments = 1 := by omega
    subst heq
    constructor
    · simp [buildInstallmentPlan]
    · simp [buildInstallmentPlan]
  · have h2 : 2 ≤ installments := by omega
    have hform :
        ((buildInstallmentPlan purchaseISO installments statementDay dueDay).map
            PaymentPlan.amount) =
          List.replicate (installments - 1).toNat (round2 (1 / (installments : ℚ))) ++
            [1 - round2 (1 / (installments : ℚ)) * ((installments : ℚ) - 1)] := by
      obtain ⟨k, hk⟩ : ∃ k : ℕ, installments.toNat = k + 1 :=
        ⟨installments.toNat - 1, by omega⟩
      have hk1 : ((k : ℤ)) = installments - 1 := by omega
      have hk2 : (installments - 1).toNat = k := by omega
      unfold buildInstallmentPlan
      rw [if_neg h1, List.map_map, hk, List.range_succ, List.map_append, hk2]
      congr 1
      · refine List.eq_replicate_iff.mpr ⟨by simp, ?_⟩
        intro b hb
        simp only [List.mem_map, List.mem_range, Function.comp] at hb
        obtain ⟨i, hi, hbe⟩ := hb
        have hne : ((i : ℤ)) ≠ installments - 1 := by omega
        simp only [hne, if_false] at hbe
        exact hbe.symm
      · simp only [List.map_cons, List.map_nil, Function.comp]
        rw [if_pos hk1, round2_last_installment]
    refine ⟨hform, ?_⟩
    rw [hform, List.sum_append, List.sum_replicate, List.sum_cons, List.sum_nil, nsmul_eq_mul]
    have hc : (((installments - 1).toNat : ℚ)) = (installments : ℚ) - 1 := by
      have : (((installments - 1).toNat : ℤ) : ℚ) = ((installments - 1 : ℤ) : ℚ) := by
        congr 1
        omega
      push_cast at this
      exact this
    rw [hc]
    ring

/-- Witness for C8 at three installments on the sample purchase date. -/
theorem buildInstallmentPlan_amounts_witness :
    ((buildInstallmentPlan (mkDate 2024 7 10) 3 15 5).map PaymentPlan.amount) =
      List.replicate ((3 : ℤ) - 1).toNat (round2 (1 / ((3 : ℤ) : ℚ))) ++
        [1 - round2 (1 / ((3 : ℤ) : ℚ)) * (((3 : ℤ) : ℚ) - 1)] ∧
    (((buildInstallmentPlan (mkDate 2024 7 10) 3 15 5).map PaymentPlan.amount)).sum = 1 :=
  buildInstallmentPlan_amounts (mkDate 2024 7 10) 3 15 5 (by norm_num)

/-! ## Claim C6 — installment ceiling and downgrade to `max 1 ceiling` -/

/-- The source's boost fold computes the maximum truthy campaign
`maxInstallments` over any starting accumulator that is non-negative. -/
lemma getCampaignInstallmentBoost_eq (campaigns : List Campaign) :
    getCampaignInstallmentBoost campaigns = campaignsMaxInstallments campaigns := by
  unfold getCampaignInstallmentBoost campaignsMaxInstallments
  suffices h : ∀ (cs : List Campaign) (acc : ℤ), 0 ≤ acc →
      cs.foldl
        (fun maxBoost campaign =>
          match campaign.maxInstallments with
          | some n => if n ≠ 0 ∧ n > maxBoost then n else maxBoost
          | none => maxBoost)
        acc =
      (cs.filterMap (fun c =>
        match c.maxInstallments with
        | some n => if n ≠ 0 then some n else none
        | none => none)).foldl max acc by
    exact h campaigns 0 le_rfl
  intro cs
  induction cs with
  | nil => intro acc _; rfl
  | cons c cs ih =>
    intro acc hacc
    rcases hc : c.maxInstallments with _ | n
    · simp only [List.foldl_cons, List.filterMap_cons, hc]
      exact ih acc hacc
    · by_cases hn : n = 0
      · subst hn
        simp only [List.foldl_cons, List.filterMap_cons, hc]
        simp only [ne_eq, not_true_eq_false, false_and, if_false]
        exact ih acc hacc
      · simp only [List.foldl_cons, List.filterMap_cons, hc, hn, ne_eq,
          not_false_eq_true, true_and, if_true, List.foldl_cons]
        have hstep : (if n > acc then n else acc) = max acc n := by
          split_ifs with hgt <;> omega
        rw [hstep]
        exact ih (max acc n) (le_trans hacc (le_max_left _ _))

/-- The engine's installment ceiling is the card cap raised to the campaign
maximum. -/
lemma getMaxAllowedInstallments_eq (card : Card) (campaigns : List Campaign) :
    getMaxAllowedInstallments card campaigns = installmentCeiling card campaigns := by
  unfold getMaxAllowedInstallments installmentCeiling cardInstallmentCap
  rw [getCampaignInstallmentBoost_eq]
  dsimp only []
  split_ifs with hgt <;> omega

/-- C6: when the purchase fits the limit and the requested installment count
exceeds the ceiling — the card-derived cap (numeric support itself, 24 for
`true`, 0 for `false`/0) raised to the maximum `maxInstallments` over all
supplied campaigns regardless of applicability — the adjusted count is
`max 1 ceiling` and the usability score is 0.4. -/
theorem checkCompatibility_ceiling_downgrade (purchase : Purchase) (card : Card)
    (campaigns : List Campaign)
    (hlimit : purchase.amount ≤ card.availableLimit)
    (hexceed : installmentCeiling card campaigns < purchase.installmentCount) :
    getMaxAllowedInstallments card campaigns = installmentCeiling card campaigns ∧
    (checkCompatibility purchase card campaigns).adjustedInstallments =
      max 1 (installmentCeiling card campaigns) ∧
    (checkCompatibility purchase card campaigns).usabilityScore = 0.4 := by
  refine ⟨getMaxAllowedInstallments_eq card campaigns, ?_⟩
  have hgt : purchase.installmentCount > installmentCeiling card campaigns := hexceed
  unfold checkCompatibility
  rw [if_neg (not_lt.mpr hlimit), getMaxAllowedInstallments_eq]
  dsimp only []
  rw [if_pos hgt]
  dsimp only []
  refine ⟨rfl, ?_⟩
  split_ifs with hu
  · exact min_eq_left (by norm_num)
  · rfl

/-- Witness for C6: a card with `installmentSupport = 0`, five requested
installments and no campaigns gives adjusted count 1 and usability 0.4. -/
theorem checkCompatibility_ceiling_downgrade_witness :
    (getMaxAllowedInstallments zeroInstallmentCard [] =
        installmentCeiling zeroInstallmentCard [] ∧
      (checkCompatibility fiveInstallmentPurchase zeroInstallmentCard
          []).adjustedInstallments = max 1 (installmentCeiling zeroInstallmentCard []) ∧
      (checkCompatibility fiveInstallmentPurchase zeroInstallmentCard
          []).usabilityScore = 0.4) ∧
    max 1 (installmentCeiling zeroInstallmentCard []) = 1 :=
  ⟨checkCompatibility_ceiling_downgrade fiveInstallmentPurchase zeroInstallmentCard []
      (by norm_num [fiveInstallmentPurchase, samplePurchase, zeroInstallmentCard])
      (by norm_num [fiveInstallmentPurchase, samplePurchase, zeroInstallmentCard,
        installmentCeiling, cardInstallmentCap, campaignsMaxInstallments]),
    by norm_num [installmentCeiling, cardInstallmentCap, campaignsMaxInstallments,
      zeroInstallmentCard]⟩

/-! ## Claim C7 — per-campaign match score and overall average -/

/-- Folding `tally` over criterion outcomes counts criteria and matches. -/
lemma tally_foldl (l : List Bool) : ∀ init : ℕ × ℕ,
    l.foldl tally init =
      (init.1 + l.length, init.2 + (l.filter (fun b => b)).length) := by
  induction l with
  | nil => intro init; simp
  | cons b bs ih =>
    intro init
    cases b <;> simp [tally, ih, List.filter_cons] <;> omega

set_option maxHeartbeats 1000000 in
/-- The counters of `evaluateCampaignMatch` are the length and matched count
of the criteria list. -/
lemma matchCounters_eq (purchase : Purchase) (campaign : Campaign) :
    matchCounters purchase campaign =
      ((criteriaResults purchase campaign).length,
        ((criteriaResults purchase campaign).filter (fun b => b)).length) := by
  unfold matchCounters criteriaResults
  rcases hdr : campaign.dateRange with _ | r <;> dsimp only [] <;>
    split_ifs <;>
    simp only [tally, List.cons_append, List.nil_append, List.append_nil,
      List.filter_cons, List.filter_nil, List.length_cons, List.length_nil] <;>
    first
      | rfl
      | (split_ifs <;> rfl)

/-- The per-campaign score computed by the engine equals the spec's match
score. -/
lemma evaluateCampaignMatch_score_eq (purchase : Purchase) (campaign : Campaign) :
    (evaluateCampaignMatch purchase campaign).score = matchScoreSpec purchase campaign := by
  unfold evaluateCampaignMatch matchScoreSpec
  rw [matchCounters_eq]
  dsimp only []
  split_ifs <;> first | rfl | tauto | omega

/-- The spec match score lies in `[0, 1]`. -/
lemma matchScoreSpec_bounds (purchase : Purchase) (campaign : Campaign) :
    0 ≤ matchScoreSpec purchase campaign ∧ matchScoreSpec purchase campaign ≤ 1 := by
  unfold matchScoreSpec
  have hMT : ((criteriaResults purchase campaign).filter (fun b => b)).length ≤
      (criteriaResults purchase campaign).length := List.length_filter_le _ _
  dsimp only []
  split_ifs with h1 h2
  · norm_num
  · constructor
    · exact le_trans (by norm_num) (le_max_left 0.3 _)
    · refine max_le (by norm_num) ?_
      have hT : 0 < (criteriaResults purchase campaign).length := by
        rcases Nat.eq_zero_or_pos (criteriaResults purchase campaign).length with h | h
        · exact absurd (Or.inl h) h1
        · exact h
      rw [div_le_one (by exact_mod_cast hT)]
      exact_mod_cast hMT
  · norm_num

/-- `matched` is the decision of a positive spec score. -/
lemma evaluateCampaignMatch_matched_eq (purchase : Purchase) (campaign : Campaign) :
    (evaluateCampaignMatch purchase campaign).matched =
      decide (0 < matchScoreSpec purchase campaign) := by
  have h : (evaluateCampaignMatch purchase campaign).matched =
      decide ((evaluateCampaignMatch purchase campaign).score > 0) := rfl
  rw [h, evaluateCampaignMatch_score_eq]

/-- The fold of `evalCampaignStep` accumulates the applicable count and the
sum of applicable scores. -/
lemma evalCampaignStep_foldl_counts (purchase : Purchase) (cs : List Campaign) :
    ∀ st : CampaignEvalState,
      ((cs.foldl (evalCampaignStep purchase) st).applicableCampaignCount =
        st.applicableCampaignCount +
          (cs.filter (fun c => (evaluateCampaignMatch purchase c).matched)).length) ∧
      ((cs.foldl (evalCampaignStep purchase) st).totalMatchScore =
        st.totalMatchScore +
          ((cs.filter (fun c => (evaluateCampaignMatch purchase c).matched)).map
            (fun c => (evaluateCampaignMatch purchase c).score)).sum) := by
  induction cs with
  | nil => intro st; simp
  | cons c cs ih =>
    intro st
    by_cases hm : (evaluateCampaignMatch purchase c).matched = true
    · have htrackE : ∀ s : CampaignEvalState,
          (trackEnrollment c s).applicableCampaignCount = s.applicableCampaignCount ∧
          (trackEnrollment c s).totalMatchScore = s.totalMatchScore := by
        intro s
        unfold trackEnrollment
        split_ifs <;> exact ⟨rfl, rfl⟩
      have htrackC : ∀ s : CampaignEvalState,
          (trackCode c s).applicableCampaignCount = s.applicableCampaignCount ∧
          (trackCode c s).totalMatchScore = s.totalMatchScore := by
        intro s
        unfold trackCode
        split_ifs <;> exact ⟨rfl, rfl⟩
      have happly : ∀ s : CampaignEvalState,
          (applyBenefits c s).applicableCampaignCount = s.applicableCampaignCount ∧
          (applyBenefits c s).totalMatchScore = s.totalMatchScore := by
        intro s
        unfold applyBenefits
        dsimp only []
        split_ifs <;> exact ⟨rfl, rfl⟩
      have hstep :
          (evalCampaignStep purchase st c).applicableCampaignCount =
            st.applicableCampaignCount + 1 ∧
          (evalCampaignStep purchase st c).totalMatchScore =
            st.totalMatchScore + (evaluateCampaignMatch purchase c).score := by
        unfold evalCampaignStep
        rw [if_pos hm]
        constructor
        · rw [(happly _).1, (htrackC _).1, (htrackE _).1]
          rfl
        · rw [(happly _).2, (htrackC _).2, (htrackE _).2]
          rfl
      obtain ⟨ih1, ih2⟩ := ih (evalCampaignStep purchase st c)
      rw [List.foldl_cons] at *
      constructor
      · rw [ih1, hstep.1]
        simp only [List.filter_cons, hm, if_true, List.length_cons]
        omega
      · rw [ih2, hstep.2]
        simp only [List.filter_cons, hm, if_true, List.map_cons, List.sum_cons]
        ring
    · have hstep : evalCampaignStep purchase st c = st := by
        unfold evalCampaignStep
        rw [if_neg hm]
      rw [List.foldl_cons, hstep]
      simp only [List.filter_cons, hm, if_false]
      exact ih st

/-- `clamp01` fixes everything already in `[0, 1]`. -/
lemma clamp01_eq_self (x : ℚ) (h0 : 0 ≤ x) (h1 : x ≤ 1) : clamp01 x = x := by
  unfold clamp01
  rw [min_eq_right h1, max_eq_right h0]

/-- The overall match score equals the plain average of per-campaign spec
scores over the applicable campaigns. -/
lemma evaluateCampaigns_matchScore_eq (purchase : Purchase) (card : Card)
    (cs : List Campaign) :
    (evaluateCampaigns purchase card cs).matchScore =
      matchScoreAverageSpec purchase cs := by
  unfold evaluateCampaigns matchScoreAverageSpec
  obtain ⟨h1, h2⟩ := evalCampaignStep_foldl_counts purchase cs initialEvalState
  dsimp only []
  rw [h1, h2]
  simp only [initialEvalState, zero_add, Nat.zero_add]
  have hfil : cs.filter (fun c => (evaluateCampaignMatch purchase c).matched) =
      cs.filter (fun c => decide (0 < matchScoreSpec purchase c)) := by
    apply List.filter_congr
    intro c _hc
    rw [evaluateCampaignMatch_matched_eq]
  have hmap :
      ((cs.filter (fun c => decide (0 < matchScoreSpec purchase c))).map
        (fun c => (evaluateCampaignMatch purchase c).score)) =
      ((cs.filter (fun c => decide (0 < matchScoreSpec purchase c))).map
        (fun c => matchScoreSpec purchase c)) := by
    apply List.map_congr_left
    intro c _hc
    exact evaluateCampaignMatch_score_eq purchase c
  rw [hfil, hmap]
  set A := cs.filter (fun c => decide (0 < matchScoreSpec purchase c)) with hA
  rcases Nat.eq_zero_or_pos A.length with hlen | hlen
  · rw [if_neg (by omega), if_pos hlen]
  · rw [if_pos hlen, if_neg (by omega)]
    have hsum0 : 0 ≤ (A.map (fun c => matchScoreSpec purchase c)).sum := by
      apply List.sum_nonneg
      intro x hx
      obtain ⟨c, _hc, hce⟩ := List.mem_map.mp hx
      rw [← hce]
      exact (matchScoreSpec_bounds purchase c).1
    have hsum1 : (A.map (fun c => matchScoreSpec purchase c)).sum ≤ (A.length : ℚ) := by
      have := List.sum_le_card_nsmul (A.map (fun c => matchScoreSpec purchase c)) 1 ?_
      · rw [List.length_map, nsmul_eq_mul, mul_one] at this
        exact this
      · intro x hx
        obtain ⟨c, _hc, hce⟩ := List.mem_map.mp hx
        rw [← hce]
        exact (matchScoreSpec_bounds purchase c).2
    have hA0 : (0 : ℚ) < (A.length : ℚ) := by exact_mod_cast hlen
    apply clamp01_eq_self
    · exact div_nonneg hsum0 (le_of_lt hA0)
    · rw [div_le_one hA0]
      exact hsum1

/-- C7: the per-campaign match score is 1.0 with zero present criteria or
all present criteria matched, `max 0.3 (matched/total)` with a partial
match, 0 with none matched; and `evaluateCampaigns` reports the average of
the per-campaign scores over the campaigns with positive score, or 0 when
none is applicable. -/
theorem campaignMatch_score_spec :
    (∀ (purchase : Purchase) (campaign : Campaign),
      (evaluateCampaignMatch purchase campaign).score = matchScoreSpec purchase campaign) ∧
    (∀ (purchase : Purchase) (card : Card) (campaigns : List Campaign),
      (evaluateCampaigns purchase card campaigns).matchScore =
        matchScoreAverageSpec purchase campaigns) :=
  ⟨evaluateCampaignMatch_score_eq, evaluateCampaigns_matchScore_eq⟩

/-! ## Claim C5 — minimum cap over applicable campaigns -/

/-- The benefit fold of `computeValueTL` sums the per-campaign benefits. -/
lemma benefit_foldl (purchase : Purchase) (card : Card) (l : List Campaign) :
    ∀ acc : ℚ,
      l.foldl (fun acc campaign => acc + campaignBenefit purchase card campaign) acc =
        acc + (l.map (fun c => campaignBenefit purchase card c)).sum := by
  induction l with
  | nil => intro acc; simp
  | cons c cs ih =>
    intro acc
    rw [List.foldl_cons, ih, List.map_cons, List.sum_cons]
    ring

/-- The cap fold of `computeValueTL` computes the minimum of the truthy caps
(continuing from `some a`, it folds `min` from `a`). -/
lemma minCapStep_foldl (l : List Campaign) :
    ∀ m : Option ℚ,
      l.foldl minCapStep m =
        (match m with
         | none => listMinQ (l.filterMap (fun c =>
             match c.capAmount with
             | some v => if v ≠ 0 then some v else none
             | none => none))
         | some a => some ((l.filterMap (fun c =>
             match c.capAmount with
             | some v => if v ≠ 0 then some v else none
             | none => none)).foldl min a)) := by
  induction l with
  | nil => intro m; cases m <;> rfl
  | cons c cs ih =>
    intro m
    rw [List.foldl_cons, List.filterMap_cons]
    rcases hc : c.capAmount with _ | v
    · have hstep : minCapStep m c = m := by
        unfold minCapStep
        rw [hc]
      rw [hstep, ih m]
    · by_cases hv : v = 0
      · have hstep : minCapStep m c = m := by
          unfold minCapStep
          rw [hc]
          subst hv
          simp
        subst hv
        rw [hstep, ih m]
        simp
      · simp only [hv, ne_eq, not_false_eq_true, if_true]
        rcases m with _ | a <;> dsimp only []
        · have hstep : minCapStep none c = some v := by
            unfold minCapStep
            rw [hc]
            simp [hv]
          rw [hstep, ih (some v)]
          rfl
        · by_cases hlt : v < a
          · have hstep : minCapStep (some a) c = some v := by
              unfold minCapStep
              rw [hc]
              simp [hv, hlt]
            rw [hstep, ih (some v), List.foldl_cons, min_eq_right (le_of_lt hlt)]
          · have hstep : minCapStep (some a) c = some a := by
              unfold minCapStep
              rw [hc]
              simp [hv, hlt]
            rw [hstep, ih (some a), List.foldl_cons, min_eq_left (not_lt.mp hlt)]

/-- Folding `min` from a non-negative seed over non-negative values stays
non-negative. -/
lemma foldl_min_nonneg (l : List ℚ) :
    ∀ a : ℚ, 0 ≤ a → (∀ x ∈ l, 0 ≤ x) → 0 ≤ l.foldl min a := by
  induction l with
  | nil => intro a ha _; simpa using ha
  | cons x xs ih =>
    intro a ha hall
    rw [List.foldl_cons]
    exact ih (min a x) (le_min ha (hall x (List.mem_cons_self x xs))) fun y hy =>
      hall y (List.mem_cons_of_mem x hy)

/-- Per-campaign benefits are non-negative for well-formed inputs. -/
lemma campaignBenefit_nonneg (purchase : Purchase) (card : Card) (c : Campaign)
    (hamount : 0 ≤ purchase.amount) (hpv : 0 ≤ card.pointValue)
    (hc : 0 ≤ c.extraCashbackPercent.getD 0 ∧ 0 ≤ c.extraPointRate.getD 0 ∧
      0 ≤ c.flatDiscount.getD 0) :
    0 ≤ campaignBenefit purchase card c := by
  have ht1 : 0 ≤ purchase.amount * c.extraCashbackPercent.getD 0 :=
    mul_nonneg hamount hc.1
  have ht2 : 0 ≤ purchase.amount * c.extraPointRate.getD 0 * card.pointValue :=
    mul_nonneg (mul_nonneg hamount hc.2.1) hpv
  have ht3 : 0 ≤ c.flatDiscount.getD 0 := hc.2.2
  unfold campaignBenefit
  dsimp only []
  split_ifs <;> linarith

/-- C5: whenever an applicable campaign carries a (truthy) `capAmount`, the
minimum cap among applicable campaigns is selected and the summed campaign
benefit is replaced by that minimum exactly when the sum exceeds it;
otherwise — sum within the cap, or no applicable campaign carrying a cap —
the summed benefit is added to the reward unchanged.  Inputs are assumed
well-formed: non-negative amount, point value, benefit fields and caps. -/
theorem computeValueTL_min_cap (purchase : Purchase) (card : Card)
    (campaigns : List Campaign)
    (hamount : 0 ≤ purchase.amount) (hpv : 0 ≤ card.pointValue)
    (hfields : ∀ c ∈ campaigns, 0 ≤ c.extraCashbackPercent.getD 0 ∧
      0 ≤ c.extraPointRate.getD 0 ∧ 0 ≤ c.flatDiscount.getD 0 ∧ 0 ≤ c.capAmount.getD 0) :
    (computeValueTL purchase card campaigns).rewardTL =
      round2 (baseReward purchase card +
        (match listMinQ (campaignCaps purchase campaigns) with
         | some m =>
             if campaignBenefitSum purchase card campaigns > m then m
             else campaignBenefitSum purchase card campaigns
         | none => campaignBenefitSum purchase card campaigns)) := by
  have happ : ∀ c ∈ applicableCampaignsOf purchase campaigns, c ∈ campaigns := by
    intro c hcmem
    exact (List.mem_filter.mp hcmem).1
  have hS : 0 ≤ campaignBenefitSum purchase card campaigns := by
    apply List.sum_nonneg
    intro x hx
    obtain ⟨c, hcmem, hce⟩ := List.mem_map.mp hx
    rw [← hce]
    obtain ⟨h1, h2, h3, _⟩ := hfields c (happ c hcmem)
    exact campaignBenefit_nonneg purchase card c hamount hpv ⟨h1, h2, h3⟩
  have hcaps : ∀ x ∈ campaignCaps purchase campaigns, 0 ≤ x := by
    intro x hx
    obtain ⟨c, hcmem, hce⟩ := List.mem_filterMap.mp hx
    obtain ⟨_, _, _, h4⟩ := hfields c (happ c hcmem)
    rcases hcap : c.capAmount with _ | v
    · rw [hcap] at hce
      simp at hce
    · rw [hcap] at hce
      by_cases hv : v = 0
      · simp [hv] at hce
      · simp [hv] at hce
        rw [← hce]
        rw [hcap] at h4
        exact h4
  have hbase :
      (if purchase.amount * card.cashbackPercent > 0 then
          (0 : ℚ) + purchase.amount * card.cashbackPercent else 0) +
        (if purchase.amount * card.pointRate * card.pointValue > 0 then
          purchase.amount * card.pointRate * card.pointValue else 0) =
        baseReward purchase card := by
    unfold baseReward
    split_ifs <;> ring
  unfold computeValueTL
  dsimp only []
  rw [benefit_foldl, minCapStep_foldl]
  dsimp only []
  have hsum :
      (0 : ℚ) + ((campaigns.filter (fun c => isCampaignApplicable purchase c)).map
        (fun c => campaignBenefit purchase card c)).sum =
      campaignBenefitSum purchase card campaigns := by
    rw [zero_add]
    rfl
  by_cases hpos : campaignBenefitSum purchase card campaigns > 0
  · rw [if_pos (by rw [hsum]; exact hpos)]
    rcases hmin : listMinQ (campaignCaps purchase campaigns) with _ | m
    · rw [show listMinQ ((campaigns.filter (fun c => isCampaignApplicable purchase c)).filterMap
          (fun c => match c.capAmount with
            | some v => if v ≠ 0 then some v else none
            | none => none)) = none from hmin]
      dsimp only []
      rw [hsum]
      congr 1
      rw [← hbase]
      split_ifs <;> ring
    · rw [show listMinQ ((campaigns.filter (fun c => isCampaignApplicable purchase c)).filterMap
          (fun c => match c.capAmount with
            | some v => if v ≠ 0 then some v else none
            | none => none)) = some m from hmin]
      dsimp only []
      rw [hsum]
      by_cases hgt : campaignBenefitSum purchase card campaigns > m
      · rw [if_pos hgt, if_pos hgt]
        congr 1
        rw [← hbase]
        split_ifs <;> ring
      · rw [if_neg hgt, if_neg hgt]
        congr 1
        rw [← hbase]
        split_ifs <;> ring
  · rw [if_neg (by rw [hsum]; exact hpos)]
    have hS0 : campaignBenefitSum purchase card campaigns = 0 := le_antisymm (not_lt.mp hpos) hS
    rcases hmin : listMinQ (campaignCaps purchase campaigns) with _ | m
    · dsimp only []
      rw [hS0, add_zero]
      congr 1
      rw [← hbase]
      split_ifs <;> ring
    · dsimp only []
      have hm0 : 0 ≤ m := by
        rcases hcl : campaignCaps purchase campaigns with _ | ⟨a, as⟩
        · rw [hcl] at hmin
          exact absurd hmin (by simp [listMinQ])
        · rw [hcl] at hmin
          unfold listMinQ at hmin
          have hmem : ∀ x ∈ campaignCaps purchase campaigns, 0 ≤ x := hcaps
          rw [hcl] at hmem
          have ha : 0 ≤ a := hmem a (List.mem_cons_self a as)
          have has : ∀ x ∈ as, 0 ≤ x := fun x hx => hmem x (List.mem_cons_of_mem a hx)
          have hfold := foldl_min_nonneg as a ha has
          simp only [Option.some.injEq] at hmin
          rw [hmin] at hfold
          exact hfold
      have hnot : ¬ (campaignBenefitSum purchase card campaigns > m) := by
        rw [hS0]
        exact not_lt.mpr hm0
      rw [if_neg hnot, hS0, add_zero]
      congr 1
      rw [← hbase]
      split_ifs <;> ring

/-- Witness for C5 at the electronics scenario (one applicable campaign
carrying the 500 cap). -/
theorem computeValueTL_min_cap_witness :
    (computeValueTL samplePurchase sampleCard [sampleCampaign]).rewardTL =
      round2 (baseReward samplePurchase sampleCard +
        (match listMinQ (campaignCaps samplePurchase [sampleCampaign]) with
         | some m =>
             if campaignBenefitSum samplePurchase sampleCard [sampleCampaign] > m then m
             else campaignBenefitSum samplePurchase sampleCard [sampleCampaign]
         | none => campaignBenefitSum samplePurchase sampleCard [sampleCampaign])) :=
  computeValueTL_min_cap samplePurchase sampleCard [sampleCampaign]
    (by norm_num [samplePurchase])
    (by norm_num [sampleCard])
    (by intro c hc
        simp only [List.mem_singleton] at hc
        subst hc
        norm_num [sampleCampaign])

/-! ## Claim C2 — only compatible cards are scored; empty result is a value -/

/-- `checkCompatibility` reports incompatibility exactly on a limit breach
(shared helper). -/
lemma checkCompatibility_false_iff (purchase : Purchase) (card : Card)
    (campaigns : List Campaign) :
    (checkCompatibility purchase card campaigns).compatible = false ↔
      card.availableLimit < purchase.amount := by
  unfold checkCompatibility
  split_ifs with h <;> simp [h]

/-- Membership in an `insertCmp` result. -/
lemma mem_insertCmp {α : Type} (cmp : α → α → ℚ) (x : α) :
    ∀ (l : List α) (a : α), a ∈ insertCmp cmp x l ↔ a = x ∨ a ∈ l := by
  intro l
  induction l with
  | nil => intro a; simp [insertCmp]
  | cons y ys ih =>
    intro a
    unfold insertCmp
    split_ifs
    · simp [List.mem_cons]
    · rw [List.mem_cons, ih a, List.mem_cons]
      tauto

/-- `sortCmp` permutes membership. -/
lemma mem_sortCmp {α : Type} (cmp : α → α → ℚ) :
    ∀ (l : List α) (a : α), a ∈ sortCmp cmp l ↔ a ∈ l := by
  intro l
  induction l with
  | nil => intro a; simp [sortCmp]
  | cons x xs ih =>
    intro a
    unfold sortCmp
    rw [mem_insertCmp, ih a, List.mem_cons]

/-- A successfully evaluated card keeps its identity and passed the
compatibility gate. -/
lemma evaluateCard_some (purchase : Purchase) (options : ScoringOptions)
    (card : Card) (data : CardScoreData)
    (h : evaluateCard purchase options card = some data) :
    data.card = card ∧
    (checkCompatibility purchase card (options.campaignsByCardId card.id)).compatible = true := by
  unfold evaluateCard at h
  dsimp only [] at h
  cases hcomp :
      (checkCompatibility purchase card (options.campaignsByCardId card.id)).compatible with
  | false =>
    rw [hcomp] at h
    simp at h
  | true =>
    rw [hcomp, Bool.not_true] at h
    rw [if_neg (show ¬(false = true) by simp)] at h
    have hrec := Option.some.inj h
    rw [← hrec]
    exact ⟨rfl, rfl⟩

/-- C2: every entry of `scoreCards` passed the compatibility check (its
available limit covers the amount), and when no card passes, `scoreCards`
returns the empty list as an ordinary value. -/
theorem scoreCards_only_compatible (purchase : Purchase) (cards : List Card)
    (options : ScoringOptions) :
    (∀ sc ∈ scoreCards purchase cards options,
      (checkCompatibility purchase sc.card
        (options.campaignsByCardId sc.card.id)).compatible = true ∧
      purchase.amount ≤ sc.card.availableLimit) ∧
    ((∀ card ∈ cards,
        (checkCompatibility purchase card
          (options.campaignsByCardId card.id)).compatible = false) →
      scoreCards purchase cards options = []) := by
  constructor
  · intro sc hsc
    unfold scoreCards at hsc
    dsimp only [] at hsc
    rcases hfm : cards.filterMap (evaluateCard purchase options) with _ | ⟨d, ds⟩ <;>
      rw [hfm] at hsc
    · simp at hsc
    · rw [mem_sortCmp] at hsc
      simp only [List.mem_map] at hsc
      obtain ⟨data', hdmem, hde⟩ := hsc
      obtain ⟨data, hdata, hnorm⟩ := hdmem
      have hdin : data ∈ cards.filterMap (evaluateCard purchase options) := by
        rw [hfm]
        exact hdata
      obtain ⟨card, _hcard, hev⟩ := List.mem_filterMap.mp hdin
      obtain ⟨hid, hcomp⟩ := evaluateCard_some purchase options card data hev
      have hsc_card : sc.card = card := by
        rw [← hde, ← hnorm, ← hid]
        rfl
      rw [hsc_card]
      refine ⟨hcomp, ?_⟩
      by_contra hlt
      have hfalse := (checkCompatibility_false_iff purchase card
        (options.campaignsByCardId card.id)).mpr (not_le.mp hlt)
      rw [hcomp] at hfalse
      simp at hfalse
  · intro hall
    have hnil : ∀ l : List Card,
        (∀ card ∈ l, (checkCompatibility purchase card
          (options.campaignsByCardId card.id)).compatible = false) →
        l.filterMap (evaluateCard purchase options) = [] := by
      intro l
      induction l with
      | nil => intro _; rfl
      | cons c cs ih =>
        intro hall'
        rw [List.filterMap_cons]
        have hev : evaluateCard purchase options c = none := by
          unfold evaluateCard
          dsimp only []
          rw [hall' c (List.mem_cons_self c cs)]
          rfl
        rw [hev]
        exact ih fun card hcard => hall' card (List.mem_cons_of_mem c hcard)
    unfold scoreCards
    dsimp only []
    rw [hnil cards hall]

/-- Witness for C2: the single low-limit card yields the empty list. -/
theorem scoreCards_only_compatible_witness :
    scoreCards samplePurchase [poorCard] {} = [] :=
  (scoreCards_only_compatible samplePurchase [poorCard] {}).2
    (by
      intro card hcard
      simp only [List.mem_singleton] at hcard
      subst hcard
      rw [checkCompatibility_false_iff]
      norm_num [poorCard, samplePurchase])

/-! ## Claim C3 — output ordering and tie-breaks -/

/-- A comparator tier negates with its inputs. -/
lemma cmpTier_neg (d n : ℚ) : cmpTier (-d) (-n) = -(cmpTier d n) := by
  unfold cmpTier
  rw [abs_neg]
  split_ifs <;> ring

/-- Name comparison is antisymmetric. -/
lemma compareName_neg (a b : ScoredCard) : compareName b a = -compareName a b := by
  unfold compareName
  rcases lt_trichotomy a.card.name b.card.name with h | h | h
  · rw [if_pos h, if_neg (asymm h), if_neg (Ne.symm (ne_of_lt h))]
    norm_num
  · have h1 : ¬ a.card.name < b.card.name := by
      rw [h]
      exact lt_irrefl _
    have h2 : ¬ b.card.name < a.card.name := by
      rw [h]
      exact lt_irrefl _
    rw [if_neg h1, if_neg h2, if_pos h, if_pos h.symm]
    norm_num
  · rw [if_pos h, if_neg (asymm h), if_neg (ne_of_gt h)]

/-- The full comparator is antisymmetric. -/
lemma compareScoredCards_neg (a b : ScoredCard) :
    compareScoredCards b a = -compareScoredCards a b := by
  unfold compareScoredCards
  rw [show a.totalScore - b.totalScore = -(b.totalScore - a.totalScore) by ring,
    show a.breakdown.valueScore - b.breakdown.valueScore =
      -(b.breakdown.valueScore - a.breakdown.valueScore) by ring,
    show a.breakdown.cashflowScore - b.breakdown.cashflowScore =
      -(b.breakdown.cashflowScore - a.breakdown.cashflowScore) by ring,
    show b.breakdown.riskPenalty - a.breakdown.riskPenalty =
      -(a.breakdown.riskPenalty - b.breakdown.riskPenalty) by ring,
    show b.resultingUtilization - a.resultingUtilization =
      -(a.resultingUtilization - b.resultingUtilization) by ring,
    compareName_neg, cmpTier_neg, cmpTier_neg, cmpTier_neg, cmpTier_neg, cmpTier_neg]

/-- The comparator order is total. -/
lemma compareScoredCards_total (a b : ScoredCard) :
    compareScoredCards a b ≤ 0 ∨ compareScoredCards b a ≤ 0 := by
  rcases le_or_lt (compareScoredCards a b) 0 with h | h
  · exact Or.inl h
  · right
    rw [compareScoredCards_neg]
    linarith

/-- Inserting into a comparator chain keeps the chain, given totality. -/
lemma chain'_insertCmp {α : Type} (cmp : α → α → ℚ)
    (htot : ∀ a b : α, cmp a b ≤ 0 ∨ cmp b a ≤ 0) (x : α) :
    ∀ l : List α, List.Chain' (fun a b => cmp a b ≤ 0) l →
      List.Chain' (fun a b => cmp a b ≤ 0) (insertCmp cmp x l) := by
  intro l
  induction l with
  | nil =>
    intro _
    exact List.chain'_singleton x
  | cons y ys ih =>
    intro hch
    unfold insertCmp
    split_ifs with hxy
    · exact List.chain'_cons.mpr ⟨hxy, hch⟩
    · have hyx : cmp y x ≤ 0 := by
        rcases htot x y with h | h
        · exact absurd h hxy
        · exact h
      refine List.chain'_cons'.mpr ⟨?_, ih hch.tail⟩
      intro z hz
      cases ys with
      | nil =>
        simp only [insertCmp, List.head?_cons, Option.mem_def, Option.some.injEq] at hz
        rw [← hz]
        exact hyx
      | cons w ws =>
        have hins : insertCmp cmp x (w :: ws) =
            if cmp x w ≤ 0 then x :: w :: ws else w :: insertCmp cmp x ws := rfl
        by_cases hxw : cmp x w ≤ 0
        · rw [hins, if_pos hxw] at hz
          simp only [List.head?_cons, Option.mem_def, Option.some.injEq] at hz
          rw [← hz]
          exact hyx
        · rw [hins, if_neg hxw] at hz
          simp only [List.head?_cons, Option.mem_def, Option.some.injEq] at hz
          rw [← hz]
          exact (List.chain'_cons.mp hch).1

/-- `sortCmp` output is a comparator chain, given totality. -/
lemma chain'_sortCmp {α : Type} (cmp : α → α → ℚ)
    (htot : ∀ a b : α, cmp a b ≤ 0 ∨ cmp b a ≤ 0) :
    ∀ l : List α, List.Chain' (fun a b => cmp a b ≤ 0) (sortCmp cmp l) := by
  intro l
  induction l with
  | nil => exact List.chain'_nil
  | cons x xs ih => exact chain'_insertCmp cmp htot x (sortCmp cmp xs) ih

/-- A chain strengthens under an implication valid on the list's members. -/
lemma chain'_imp_mem {α : Type} {R S : α → α → Prop} :
    ∀ l : List α, (∀ a ∈ l, ∀ b ∈ l, R a b → S a b) → List.Chain' R l →
      List.Chain' S l := by
  intro l
  induction l with
  | nil =>
    intro _ _
    exact List.chain'_nil
  | cons x xs ih =>
    intro himp hch
    cases xs with
    | nil => exact List.chain'_singleton x
    | cons y ys =>
      rw [List.chain'_cons] at hch ⊢
      refine ⟨himp x (List.mem_cons_self x _) y
        (List.mem_cons_of_mem x (List.mem_cons_self y _)) hch.1, ?_⟩
      exact ih (fun a ha b hb hr =>
        himp a (List.mem_cons_of_mem x ha) b (List.mem_cons_of_mem x hb) hr) hch.2

/-- Clamping a hundredths-valued score to `[0,100]` keeps denominator 100. -/
lemma clamp_total_form (k : ℤ) :
    max (0 : ℚ) (min 100 ((k : ℚ) / 100)) = ((max 0 (min 10000 k) : ℤ) : ℚ) / 100 := by
  have h1 : ((max 0 (min 10000 k) : ℤ) : ℚ) = max 0 (min 10000 (k : ℚ)) := by
    push_cast
    rfl
  rw [h1, ← max_div_div_right (show (0 : ℚ) ≤ 100 by norm_num),
    ← min_div_div_right (show (0 : ℚ) ≤ 100 by norm_num)]
  norm_num

/-- Every total score produced by `mkScoredCard` has denominator 100. -/
lemma mkScoredCard_totalScore_form (weights : ScoreWeights) (data : CardScoreData) :
    ∃ z : ℤ, (mkScoredCard weights data).totalScore = (z : ℚ) / 100 := by
  unfold mkScoredCard round2
  dsimp only []
  exact ⟨_, clamp_total_form _⟩

/-- Every total score in the `scoreCards` output has denominator 100. -/
lemma scoreCards_totalScore_form (purchase : Purchase) (cards : List Card)
    (options : ScoringOptions) :
    ∀ sc ∈ scoreCards purchase cards options, ∃ z : ℤ, sc.totalScore = (z : ℚ) / 100 := by
  intro sc hsc
  unfold scoreCards at hsc
  dsimp only [] at hsc
  rcases hfm : cards.filterMap (evaluateCard purchase options) with _ | ⟨d, ds⟩ <;>
    rw [hfm] at hsc
  · simp at hsc
  · rw [mem_sortCmp] at hsc
    simp only [List.mem_map] at hsc
    obtain ⟨data', ⟨data, _hmem, hnorm⟩, hde⟩ := hsc
    rw [← hde]
    exact mkScoredCard_totalScore_form _ _

/-- Hundredths that agree within 1e-6 are equal. -/
lemma hundredths_eps_eq (z1 z2 : ℤ)
    (h : |(z1 : ℚ) / 100 - (z2 : ℚ) / 100| ≤ 1 / 1000000) :
    (z1 : ℚ) / 100 = (z2 : ℚ) / 100 := by
  have hcast : (z1 : ℚ) / 100 - (z2 : ℚ) / 100 = ((z1 - z2 : ℤ) : ℚ) / 100 := by
    push_cast
    ring
  rw [hcast] at h
  rw [abs_div, abs_of_pos (by norm_num : (0 : ℚ) < 100)] at h
  have habs : |((z1 - z2 : ℤ) : ℚ)| < 1 := by linarith
  rw [← Int.cast_abs] at habs
  have hlt : |z1 - z2| < 1 := by exact_mod_cast habs
  obtain ⟨hl, hr⟩ := abs_lt.mp hlt
  have hzz : z1 = z2 := by omega
  rw [hzz]

/-- A non-positive comparison between hundredths-scored entries yields the
claimed descending order with documented tie-breaks. -/
lemma compareScoredCards_le_imp (a b : ScoredCard)
    (ha : ∃ z : ℤ, a.totalScore = (z : ℚ) / 100)
    (hb : ∃ z : ℤ, b.totalScore = (z : ℚ) / 100)
    (h : compareScoredCards a b ≤ 0) :
    b.totalScore ≤ a.totalScore ∧
      (|a.totalScore - b.totalScore| ≤ 1 / 1000000 → tieBreak a b) := by
  unfold compareScoredCards at h
  rw [cmpTier] at h
  by_cases h1 : |b.totalScore - a.totalScore| > 1 / 1000000
  · rw [if_pos h1] at h
    refine ⟨by linarith, fun habs => absurd habs ?_⟩
    rw [abs_sub_comm]
    exact not_le.mpr h1
  · rw [if_neg h1] at h
    obtain ⟨z1, hz1⟩ := ha
    obtain ⟨z2, hz2⟩ := hb
    have heq : a.totalScore = b.totalScore := by
      rw [hz1, hz2]
      apply hundredths_eps_eq
      rw [← hz1, ← hz2, abs_sub_comm]
      exact not_lt.mp h1
    refine ⟨le_of_eq heq.symm, fun _ => ?_⟩
    unfold tieBreak
    rw [cmpTier] at h
    by_cases h2 : |b.breakdown.valueScore - a.breakdown.valueScore| > 1 / 1000000
    · rw [if_pos h2] at h
      left
      rw [abs_of_nonpos h] at h2
      linarith
    · rw [if_neg h2] at h
      right
      refine ⟨by rw [abs_sub_comm]; exact not_lt.mp h2, ?_⟩
      rw [cmpTier] at h
      by_cases h3 : |b.breakdown.cashflowScore - a.breakdown.cashflowScore| > 1 / 1000000
      · rw [if_pos h3] at h
        left
        rw [abs_of_nonpos h] at h3
        linarith
      · rw [if_neg h3] at h
        right
        refine ⟨by rw [abs_sub_comm]; exact not_lt.mp h3, ?_⟩
        rw [cmpTier] at h
        by_cases h4 : |a.breakdown.riskPenalty - b.breakdown.riskPenalty| > 1 / 1000000
        · rw [if_pos h4] at h
          left
          rw [abs_of_nonpos h] at h4
          linarith
        · rw [if_neg h4] at h
          right
          refine ⟨not_lt.mp h4, ?_⟩
          rw [cmpTier] at h
          by_cases h5 : |a.resultingUtilization - b.resultingUtilization| > 1 / 1000000
          · rw [if_pos h5] at h
            left
            rw [abs_of_nonpos h] at h5
            linarith
          · rw [if_neg h5] at h
            right
            refine ⟨not_lt.mp h5, ?_⟩
            unfold compareName at h
            split_ifs at h with hn1 hn2
            · exact le_of_lt hn1
            · exact le_of_eq hn2
            · exact absurd h (by norm_num)

/-- C3: the `scoreCards` output is sorted descending by `totalScore`, and
any two adjacent entries whose total scores agree within 1e-6 stand in the
documented tie-break order (higher valueScore, higher cashflowScore, lower
riskPenalty, lower resultingUtilization, name ascending). -/
theorem scoreCards_sorted (purchase : Purchase) (cards : List Card)
    (options : ScoringOptions) :
    (scoreCards purchase cards options).Pairwise
      (fun a b => b.totalScore ≤ a.totalScore) ∧
    (scoreCards purchase cards options).Chain' (fun a b =>
      b.totalScore ≤ a.totalScore ∧
        (|a.totalScore - b.totalScore| ≤ 1 / 1000000 → tieBreak a b)) := by
  have hchain0 : List.Chain' (fun a b => compareScoredCards a b ≤ 0)
      (scoreCards purchase cards options) := by
    unfold scoreCards
    dsimp only []
    rcases hfm : cards.filterMap (evaluateCard purchase options) with _ | ⟨d, ds⟩
    · exact List.chain'_nil
    · exact chain'_sortCmp compareScoredCards compareScoredCards_total _
  have hforms := scoreCards_totalScore_form purchase cards options
  have hchain : List.Chain' (fun a b =>
      b.totalScore ≤ a.totalScore ∧
        (|a.totalScore - b.totalScore| ≤ 1 / 1000000 → tieBreak a b))
      (scoreCards purchase cards options) :=
    chain'_imp_mem _ (fun a ha b hb hr =>
      compareScoredCards_le_imp a b (hforms a ha) (hforms b hb) hr) hchain0
  refine ⟨?_, hchain⟩
  haveI : IsTrans ScoredCard (fun a b => b.totalScore ≤ a.totalScore) :=
    ⟨fun _ _ _ hxy hyz => le_trans hyz hxy⟩
  exact List.chain'_iff_pairwise.mp (hchain.imp fun _ _ hr => hr.1)

end CardPlan
